import Mathlib

/-
Verification of the LanceDB memory provider (src/controlflow/memory/providers/lance.py).

The provider is a thin adapter over two external capabilities described in the
specification: a vector-storage engine (connect, open/create table, insert,
delete-by-filter, similarity search) and an embedding function (text to a
fixed-length vector, with a reported dimensionality).  The adapter logic itself
(get_model, get_table, add, delete, search) is embedded faithfully below as
state-passing functions; the capabilities are modelled from the specification's
interface section.  Vectors are modelled with integer entries: no claim depends
on the numeric contents of a vector, only on how the adapter routes them.
-/

set_option autoImplicit false

namespace LanceMem

/-- Error kinds surfaced by the adapter or its capabilities: the embedding
capability failing to report a dimensionality (a configuration error), a
generic engine failure, and the engine's distinct "table already exists"
failure raised by createTable. -/
inductive Err where
  | configurationError
  | storageError
  | tableExists
  deriving DecidableEq, Repr

/-- The embedding capability (spec: external collaborator).  `ndimsResult` is
`some n` when `fn.ndims()` returns `n`, and `none` when querying the
dimensionality raises (misconfigured credentials, unreachable service).
`embed` is the text-to-vector hook the engine invokes during insertion and
search. -/
structure EmbeddingFn where
  ndimsResult : Option Nat
  embed : String → List Int

/-- The `Memory(LanceModel)` class built inside `get_model`: a record schema
with fields id, text and a vector of the captured dimensionality, binding the
embedding function `fn` that was read from the provider at construction
time. -/
structure Model where
  dims : Nat
  fn : EmbeddingFn

/-- A stored memory record: identifier, raw text, and the vector the engine
derived from the text at insertion time. -/
structure Record where
  id : String
  text : String
  vector : List Int
  deriving DecidableEq, Repr

/-- Modelled from the spec: a physical table of the storage engine, holding
the schema it was created with (the engine uses the schema's embedding hooks
on insert and search) and its records. -/
structure TableData where
  model : Model
  records : List Record

/-- Modelled from the spec: the storage engine's state, a name-to-table map. -/
abbrev DB := List (String × TableData)

/-- Modelled from the spec: `Connection.openTable` — the table of that name,
or `none` when it does not exist (the engine's FileNotFoundError). -/
def dbOpenTable (db : DB) (nm : String) : Option TableData :=
  match db with
  | [] => none
  | (n, t) :: rest => if n = nm then some t else dbOpenTable rest nm

/-- Modelled from the spec: `Connection.createTable` — creates an empty table
with the given schema; the engine raises its "table already exists" error when
a table of that name is already present. -/
def dbCreateTable (db : DB) (nm : String) (model : Model) : Except Err (DB × TableData) :=
  match dbOpenTable db nm with
  | some _ => .error .tableExists
  | none => .ok ((nm, ⟨model, []⟩) :: db, ⟨model, []⟩)

/-- Writing back through a table handle: replaces the table named `nm`. -/
def dbSetTable (db : DB) (nm : String) (t : TableData) : DB :=
  match db with
  | [] => []
  | (n, u) :: rest => if n = nm then (n, t) :: rest else (n, u) :: dbSetTable rest nm t

def lbrace : Char := Char.ofNat 123

def rbrace : Char := Char.ofNat 125

def dquote : Char := Char.ofNat 34

/-- Python `template.format(key=...)` restricted to the fragment the provider
documents: every occurrence of the placeholder (left brace, `key`, right
brace) in the template is replaced by the key; all other characters are copied
verbatim. -/
def substKey (key : List Char) : List Char → List Char
  | a :: b :: c :: d :: e :: rest =>
    if a = lbrace ∧ b = 'k' ∧ c = 'e' ∧ d = 'y' ∧ e = rbrace then
      key ++ substKey key rest
    else
      a :: substKey key (b :: c :: d :: e :: rest)
  | a :: rest => a :: substKey key rest
  | [] => []

/-- The table name for a key: `self.table_name.format(key=memory_key)`. -/
def pyFormat (template key : String) : String :=
  String.mk (substKey key.data template.data)

/-- The default naming template of the provider. -/
def defaultTemplate : String := "memory-{key}"

/-- The provider instance.  `cached_model` is the `_cached_model` private
attribute, `none` before the first successful `get_model`. -/
structure LanceMemory where
  uri : String
  table_name : String
  embedding_fn : EmbeddingFn
  cached_model : Option Model

/-- `fn.ndims()`: the reported dimensionality, or the configuration error when
the capability cannot report one. -/
def EmbeddingFn.ndims (fn : EmbeddingFn) : Except Err Nat :=
  match fn.ndimsResult with
  | some n => .ok n
  | none => .error .configurationError

/-- `LanceMemory.get_model`: when `_cached_model` is unset, reads
`self.embedding_fn`, queries `fn.ndims()`, builds the `Memory` schema class
capturing that function and dimensionality, stores it in `_cached_model` and
returns it; when set, returns the stored schema unchanged. -/
def get_model (m : LanceMemory) : Except Err (Model × LanceMemory) :=
  match m.cached_model with
  | some mdl => .ok (mdl, m)
  | none =>
    match m.embedding_fn.ndims with
    | .error e => .error e
    | .ok n =>
      let mdl : Model := ⟨n, m.embedding_fn⟩
      .ok (mdl, { m with cached_model := some mdl })

/-- `LanceMemory.get_table`: formats the key into the template, obtains the
schema via `get_model`, then opens the table of that name, creating it with
the schema when the open reports not-found.  Returns the updated provider, the
engine state, the physical table name, and the table handle. -/
def get_table (m : LanceMemory) (db : DB) (memory_key : String) :
    Except Err (LanceMemory × DB × String × TableData) :=
  match get_model m with
  | .error e => .error e
  | .ok (model, m') =>
    match dbOpenTable db (pyFormat m.table_name memory_key) with
    | some t => .ok (m', db, pyFormat m.table_name memory_key, t)
    | none =>
      match dbCreateTable db (pyFormat m.table_name memory_key) model with
      | .error e => .error e
      | .ok (db', t) => .ok (m', db', pyFormat m.table_name memory_key, t)

/-- `LanceMemory.get_table` with the engine state allowed to change between
the open attempt and the create attempt: the open runs against `db0` and the
create against `db1`.  With `db1 = db0` this is exactly `get_table`; with a
table created concurrently between the two engine calls it exhibits the
creation race of the specification's concurrency section. -/
def get_table_interleaved (m : LanceMemory) (db0 db1 : DB) (memory_key : String) :
    Except Err (LanceMemory × DB × String × TableData) :=
  match get_model m with
  | .error e => .error e
  | .ok (model, m') =>
    match dbOpenTable db0 (pyFormat m.table_name memory_key) with
    | some t => .ok (m', db0, pyFormat m.table_name memory_key, t)
    | none =>
      match dbCreateTable db1 (pyFormat m.table_name memory_key) model with
      | .error e => .error e
      | .ok (db', t) => .ok (m', db', pyFormat m.table_name memory_key, t)

/-- `LanceMemory.add`: the identifier produced by `str(uuid.uuid4())` is the
`memory_id` argument (the output of the identifier-generation capability; the
caller of `add` never supplies it, and no vector is accepted from the caller).
The table is resolved and the record inserted with only id and text supplied;
the engine populates the vector from the table schema's embedding function.
The generated identifier is returned. -/
def add (m : LanceMemory) (db : DB) (memory_id : String) (memory_key content : String) :
    Except Err (LanceMemory × DB × String) :=
  match get_table m db memory_key with
  | .error e => .error e
  | .ok (m', db', nm, t) =>
    let r : Record := ⟨memory_id, content, t.model.fn.embed content⟩
    .ok (m', dbSetTable db' nm { t with records := t.records ++ [r] }, memory_id)

/-- The filter expression `delete` passes to the engine, built exactly as in
the source: the f-string `id = "<memory_id>"`, raw interpolation of the
caller-supplied identifier with no escaping. -/
def filterString (memory_id : String) : String :=
  "id = \"" ++ memory_id ++ "\""

/-- Reads a double-quote-delimited literal: the characters up to the next
double quote, and the remainder after it; `none` when no closing quote
exists. -/
def takeLit : List Char → Option (List Char × List Char)
  | [] => none
  | c :: rest =>
    if c = dquote then some ([], rest)
    else
      match takeLit rest with
      | none => none
      | some (l, r) => some (c :: l, r)

/-- Modelled from the spec: the engine's filter language, restricted to the
fragment reachable from the strings `delete` builds — equality atoms
`id = "literal"` joined by `OR`.  Returns the list of literals the filter
compares `id` against, or `none` for a string outside the fragment (which the
engine rejects).  The fuel argument bounds recursion depth. -/
def parseAtoms : Nat → List Char → Option (List String)
  | 0, _ => none
  | Nat.succ fuel, cs =>
    match cs with
    | 'i' :: 'd' :: ' ' :: '=' :: ' ' :: q :: rest =>
      if q = dquote then
        match takeLit rest with
        | none => none
        | some (l, r) =>
          match r with
          | [] => some [String.mk l]
          | ' ' :: 'O' :: 'R' :: ' ' :: r2 =>
            match parseAtoms fuel r2 with
            | none => none
            | some ls => some (String.mk l :: ls)
          | _ => none
      else none
    | _ => none

/-- Parses a filter expression of the delete fragment. -/
def parseFilter (s : String) : Option (List String) :=
  parseAtoms (s.length + 1) s.data

/-- A record matches a parsed filter when its id equals one of the filter's
literals. -/
def matchesFilter (lits : List String) (r : Record) : Bool :=
  lits.any (fun l => r.id == l)

/-- `LanceMemory.delete`: resolves the table and passes the interpolated
filter to the engine's delete, which removes every record the parsed filter
matches (an unparseable filter is an engine failure). -/
def delete (m : LanceMemory) (db : DB) (memory_key memory_id : String) :
    Except Err (LanceMemory × DB) :=
  match get_table m db memory_key with
  | .error e => .error e
  | .ok (m', db', nm, t) =>
    match parseFilter (filterString memory_id) with
    | none => .error .storageError
    | some lits =>
      .ok (m', dbSetTable db' nm { t with records := t.records.filter (fun r => ! matchesFilter lits r) })

/-- Modelled from the spec: the engine's similarity search.  `rank rs q` is
the engine's ranking of the stored records `rs` against the query `q`,
closest first, possibly dropping records below an internal relevance
threshold; it is always a sublist of the stored records. -/
structure Ranker where
  rank : List Record → String → List Record
  rank_sublist : ∀ rs q, List.Sublist (rank rs q) rs

/-- One step of the Python dict comprehension: bind key `k` to `v`, a later
binding for a key that is already present overwriting the earlier value. -/
def updateAssoc (acc : List (String × String)) (k v : String) : List (String × String) :=
  if acc.any (fun p => p.1 == k) then
    acc.map (fun p => if p.1 == k then (k, v) else p)
  else acc ++ [(k, v)]

/-- The dict comprehension of `search`: the id-to-text mapping over the result
records. -/
def toDict (rs : List Record) : List (String × String) :=
  rs.foldl (fun acc r => updateAssoc acc r.id r.text) []

/-- `LanceMemory.search`: resolves the table, runs the engine search for the
query capped at `n` results, converts them with the cached model
(`to_pydantic(self.get_model())`) and builds the id-to-text mapping. -/
def search (rk : Ranker) (m : LanceMemory) (db : DB) (memory_key query : String) (n : Nat) :
    Except Err (LanceMemory × DB × List (String × String)) :=
  match get_table m db memory_key with
  | .error e => .error e
  | .ok (m', db', _nm, t) =>
    match get_model m' with
    | .error e => .error e
    | .ok (_mdl, m'') =>
      .ok (m'', db', toDict ((rk.rank t.records query).take n))

/-- Projection forgetting the provider state: engine state and result only. -/
def dbAndOut {α : Type} : Except Err (LanceMemory × DB × α) → Except Err (DB × α)
  | .error e => .error e
  | .ok (_, db, a) => .ok (db, a)

/-- Projection keeping only the operation's result. -/
def outOnly {α : Type} : Except Err (LanceMemory × DB × α) → Except Err α
  | .error e => .error e
  | .ok (_, _, a) => .ok a

/-- Projection forgetting the provider state of a delete result. -/
def dbOnly : Except Err (LanceMemory × DB) → Except Err DB
  | .error e => .error e
  | .ok (_, db) => .ok db

/- Concrete sample values used to exercise the operations. -/

/-- A sample embedding capability reporting dimensionality 2. -/
def fnA : EmbeddingFn := ⟨some 2, fun s => [Int.ofNat s.length, 2]⟩

/-- A sample embedding capability that cannot report its dimensionality. -/
def fnBad : EmbeddingFn := ⟨none, fun _ => []⟩

/-- The schema derived from fnA. -/
def mdlA : Model := ⟨2, fnA⟩

/-- A freshly constructed provider (no cached schema). -/
def memA : LanceMemory := ⟨"/data/lancedb", defaultTemplate, fnA, none⟩

/-- The provider after its first successful get_model. -/
def memAC : LanceMemory := ⟨"/data/lancedb", defaultTemplate, fnA, some mdlA⟩

/-- A provider whose embedding capability cannot report a dimensionality. -/
def memBad : LanceMemory := ⟨"/data/lancedb", defaultTemplate, fnBad, none⟩

/-- A trivial engine ranking: every stored record matches, in storage order. -/
def rkAll : Ranker := ⟨fun rs _ => rs, fun rs _ => List.Sublist.refl rs⟩

/-- A sample stored record with identifier b. -/
def recB : Record := ⟨"b", "boo", [3, 2]⟩

/-- A caller-supplied identifier that carries a quote and an OR clause into
the interpolated filter. -/
def injectionId : String := "a\" OR id = \"b"

/-- An engine state holding one record under key k. -/
def dbInj : DB := [("memory-k", ⟨mdlA, [recB]⟩)]

/-- The record inserted by the sample add call. -/
def recW : Record := ⟨"id-1", "hello", [5, 2]⟩

/-- The engine state after the sample add under key k1. -/
def dbW1 : DB := [("memory-k1", ⟨mdlA, [recW]⟩)]

/-- The engine state after the sample add under key k. -/
def dbWk : DB := [("memory-k", ⟨mdlA, [recW]⟩)]

/-- An engine state holding one empty table under key k. -/
def dbEmptyK : DB := [("memory-k", TableData.mk mdlA [])]

/- Helper lemmas about the naming template. -/

theorem pyFormat_default (k : String) : pyFormat defaultTemplate k = "memory-" ++ k := by
  apply String.ext
  show 'm' :: 'e' :: 'm' :: 'o' :: 'r' :: 'y' :: '-' :: (k.data ++ []) = ("memory-" ++ k).data
  simp

theorem pyFormat_default_inj (a b : String)
    (h : pyFormat defaultTemplate a = pyFormat defaultTemplate b) : a = b := by
  rw [pyFormat_default, pyFormat_default] at h
  have h2 := congrArg String.data h
  simp only [String.data_append] at h2
  exact String.ext (List.append_cancel_left h2)

/- Helper lemmas about the filter parser. -/

theorem takeLit_no_quote (l rest : List Char) (h : dquote ∉ l) :
    takeLit (l ++ dquote :: rest) = some (l, rest) := by
  induction l with
  | nil => simp [takeLit]
  | cons c cs ih =>
    have hc : c ≠ dquote := fun hc => h (hc ▸ List.mem_cons_self c cs)
    have hcs : dquote ∉ cs := fun hm => h (List.mem_cons_of_mem c hm)
    have h2 := ih hcs
    simp only [List.cons_append, takeLit, if_neg hc, List.append_eq, h2]

theorem parseFilter_no_quote (id : String) (h : dquote ∉ id.data) :
    parseFilter (filterString id) = some [id] := by
  have hdata : (filterString id).data =
      'i' :: 'd' :: ' ' :: '=' :: ' ' :: dquote :: (id.data ++ dquote :: []) := by
    show ("id = \"" ++ id ++ "\"").data = _
    simp [String.data_append]
    rfl
  unfold parseFilter
  rw [hdata]
  show parseAtoms ((filterString id).length + 1)
      ('i' :: 'd' :: ' ' :: '=' :: ' ' :: dquote :: (id.data ++ dquote :: [])) = some [id]
  rw [parseAtoms]
  rw [if_pos rfl, takeLit_no_quote id.data [] h]

/- Helper lemmas about the engine state. -/

theorem dbOpenTable_set_self (db : DB) (nm : String) (t u : TableData)
    (h : dbOpenTable db nm = some u) :
    dbOpenTable (dbSetTable db nm t) nm = some t := by
  induction db with
  | nil => simp [dbOpenTable] at h
  | cons p rest ih =>
    obtain ⟨n, v⟩ := p
    by_cases hn : n = nm
    · simp [dbOpenTable, dbSetTable, hn]
    · simp only [dbOpenTable, dbSetTable, if_neg hn] at h ⊢
      exact ih h

theorem dbOpenTable_set_other (db : DB) (nm nm' : String) (t : TableData) (h : nm' ≠ nm) :
    dbOpenTable (dbSetTable db nm t) nm' = dbOpenTable db nm' := by
  induction db with
  | nil => simp [dbSetTable]
  | cons p rest ih =>
    obtain ⟨n, v⟩ := p
    by_cases hn : n = nm
    · have hx : n ≠ nm' := fun he => h (he ▸ hn)
      simp only [dbSetTable, if_pos hn, dbOpenTable, if_neg hx]
    · simp only [dbSetTable, if_neg hn, dbOpenTable]
      by_cases hx : n = nm'
      · rw [if_pos hx, if_pos hx]
      · rw [if_neg hx, if_neg hx]
        exact ih

/- Helper lemmas about get_model. -/

theorem get_model_cache_hit (m : LanceMemory) (mdl : Model) (h : m.cached_model = some mdl) :
    get_model m = .ok (mdl, m) := by
  simp [get_model, h]

theorem get_model_ok_shape (m : LanceMemory) (mdl : Model) (m' : LanceMemory)
    (h : get_model m = .ok (mdl, m')) :
    m' = { m with cached_model := some mdl } := by
  unfold get_model at h
  cases hc : m.cached_model with
  | some mdl0 =>
    rw [hc] at h
    simp only [Except.ok.injEq, Prod.mk.injEq] at h
    obtain ⟨h1, h2⟩ := h
    subst h1
    subst h2
    cases m with
    | mk uri tn fn cm =>
      simp at hc
      simp [hc]
  | none =>
    rw [hc] at h
    cases hn : m.embedding_fn.ndims with
    | error e => rw [hn] at h; exact absurd h (by simp)
    | ok n =>
      rw [hn] at h
      simp only [Except.ok.injEq, Prod.mk.injEq] at h
      obtain ⟨h1, h2⟩ := h
      subst h1
      exact h2.symm

theorem get_model_idem (m : LanceMemory) (mdl : Model) (m' : LanceMemory)
    (h : get_model m = .ok (mdl, m')) :
    get_model m' = .ok (mdl, m') := by
  have hs := get_model_ok_shape m mdl m' h
  subst hs
  exact get_model_cache_hit _ mdl rfl

theorem get_model_fields (m : LanceMemory) (mdl : Model) (m' : LanceMemory)
    (h : get_model m = .ok (mdl, m')) :
    m'.table_name = m.table_name ∧ m'.cached_model = some mdl := by
  have hs := get_model_ok_shape m mdl m' h
  subst hs
  exact ⟨rfl, rfl⟩

/- Helper lemmas about get_table. -/

theorem get_table_opens (m : LanceMemory) (db : DB) (key : String)
    (mdl : Model) (m' : LanceMemory) (t : TableData)
    (hm : get_model m = .ok (mdl, m'))
    (ht : dbOpenTable db (pyFormat m.table_name key) = some t) :
    get_table m db key = .ok (m', db, pyFormat m.table_name key, t) := by
  unfold get_table
  rw [hm, ht]

theorem get_table_creates (m : LanceMemory) (db : DB) (key : String)
    (mdl : Model) (m' : LanceMemory)
    (hm : get_model m = .ok (mdl, m'))
    (ht : dbOpenTable db (pyFormat m.table_name key) = none) :
    get_table m db key =
      .ok (m', (pyFormat m.table_name key, ⟨mdl, []⟩) :: db,
           pyFormat m.table_name key, ⟨mdl, []⟩) := by
  unfold get_table dbCreateTable
  rw [hm, ht]

theorem get_table_ok (m : LanceMemory) (db : DB) (key : String)
    (m' : LanceMemory) (db' : DB) (nm : String) (t : TableData)
    (h : get_table m db key = .ok (m', db', nm, t)) :
    nm = pyFormat m.table_name key ∧
    ∃ mdl, get_model m = .ok (mdl, m') ∧
      ((dbOpenTable db nm = some t ∧ db' = db) ∨
       (dbOpenTable db nm = none ∧ t = ⟨mdl, []⟩ ∧ db' = (nm, t) :: db)) := by
  unfold get_table at h
  cases hm : get_model m with
  | error e => rw [hm] at h; exact absurd h (by simp)
  | ok p =>
    obtain ⟨mdl, m1⟩ := p
    rw [hm] at h
    cases ht : dbOpenTable db (pyFormat m.table_name key) with
    | some t0 =>
      rw [ht] at h
      simp only [Except.ok.injEq, Prod.mk.injEq] at h
      obtain ⟨h1, h2, h3, h4⟩ := h
      refine ⟨h3.symm, mdl, ?_, Or.inl ⟨?_, h2.symm⟩⟩
      · rw [h1]
      · rw [← h3, ← h4]; exact ht
    | none =>
      rw [ht] at h
      unfold dbCreateTable at h
      rw [ht] at h
      simp only [Except.ok.injEq, Prod.mk.injEq] at h
      obtain ⟨h1, h2, h3, h4⟩ := h
      refine ⟨h3.symm, mdl, ?_, Or.inr ⟨?_, h4.symm, ?_⟩⟩
      · rw [h1]
      · rw [← h3]; exact ht
      · rw [← h2, ← h3, ← h4]

/-- After a successful get_table, the resolved table is present in the
resulting engine state and all other tables are untouched. -/
theorem get_table_ok_lookup (m : LanceMemory) (db : DB) (key : String)
    (m' : LanceMemory) (db' : DB) (nm : String) (t : TableData)
    (h : get_table m db key = .ok (m', db', nm, t)) :
    dbOpenTable db' nm = some t ∧
    ∀ nm', nm' ≠ nm → dbOpenTable db' nm' = dbOpenTable db nm' := by
  obtain ⟨hnm, mdl, hm, hcase⟩ := get_table_ok m db key m' db' nm t h
  cases hcase with
  | inl hc => exact ⟨hc.2 ▸ hc.1, fun nm' _ => by rw [hc.2]⟩
  | inr hc =>
    refine ⟨?_, ?_⟩
    · rw [hc.2.2]
      simp [dbOpenTable]
    · intro nm' hne
      rw [hc.2.2]
      show (if nm = nm' then some t else dbOpenTable db nm') = dbOpenTable db nm'
      rw [if_neg fun hx => hne hx.symm]

/- Helper lemmas about the dict comprehension. -/

theorem updateAssoc_length (acc : List (String × String)) (k v : String) :
    (updateAssoc acc k v).length ≤ acc.length + 1 := by
  unfold updateAssoc
  split
  · simp
  · simp

theorem toDict_go_length (rs : List Record) (acc : List (String × String)) :
    (rs.foldl (fun a r => updateAssoc a r.id r.text) acc).length ≤ acc.length + rs.length := by
  induction rs generalizing acc with
  | nil => simp
  | cons r rest ih =>
    simp only [List.foldl_cons, List.length_cons]
    calc (rest.foldl (fun a r => updateAssoc a r.id r.text) (updateAssoc acc r.id r.text)).length
        ≤ (updateAssoc acc r.id r.text).length + rest.length := ih _
      _ ≤ (acc.length + 1) + rest.length :=
          Nat.add_le_add_right (updateAssoc_length acc r.id r.text) _
      _ = acc.length + (rest.length + 1) := by omega

theorem toDict_length (rs : List Record) : (toDict rs).length ≤ rs.length := by
  have h := toDict_go_length rs []
  simpa [toDict] using h

theorem updateAssoc_mem (acc : List (String × String)) (k v : String)
    (p : String × String) (h : p ∈ updateAssoc acc k v) :
    p ∈ acc ∨ p.1 = k := by
  unfold updateAssoc at h
  split at h
  · rw [List.mem_map] at h
    obtain ⟨q, hq, he⟩ := h
    by_cases hqk : q.1 == k
    · right
      rw [if_pos hqk] at he
      rw [← he]
    · left
      rw [if_neg hqk] at he
      rw [← he]
      exact hq
  · rw [List.mem_append] at h
    cases h with
    | inl h => exact Or.inl h
    | inr h =>
      right
      simp at h
      rw [h]

theorem toDict_go_mem (rs : List Record) (acc : List (String × String))
    (p : String × String)
    (h : p ∈ rs.foldl (fun a r => updateAssoc a r.id r.text) acc) :
    p ∈ acc ∨ ∃ r ∈ rs, r.id = p.1 := by
  induction rs generalizing acc with
  | nil => exact Or.inl (by simpa using h)
  | cons r rest ih =>
    simp only [List.foldl_cons] at h
    cases ih (updateAssoc acc r.id r.text) h with
    | inl hi =>
      cases updateAssoc_mem acc r.id r.text p hi with
      | inl ha => exact Or.inl ha
      | inr hk => exact Or.inr ⟨r, List.mem_cons_self r rest, hk.symm⟩
    | inr hi =>
      obtain ⟨r0, hr0, hid⟩ := hi
      exact Or.inr ⟨r0, List.mem_cons_of_mem r hr0, hid⟩

theorem toDict_mem (rs : List Record) (p : String × String) (h : p ∈ toDict rs) :
    ∃ r ∈ rs, r.id = p.1 := by
  have := toDict_go_mem rs [] p (by simpa [toDict] using h)
  simpa using this

/- Characterization of a successful add and delete. -/

theorem add_ok_spec (m m' : LanceMemory) (db db' : DB) (newId key c rid : String)
    (h : add m db newId key c = .ok (m', db', rid)) :
    rid = newId ∧
    ∃ (db1 : DB) (t : TableData),
      get_table m db key = .ok (m', db1, pyFormat m.table_name key, t) ∧
      db' = dbSetTable db1 (pyFormat m.table_name key)
        { t with records := t.records ++ [⟨newId, c, t.model.fn.embed c⟩] } := by
  unfold add at h
  cases hgt : get_table m db key with
  | error e => rw [hgt] at h; exact absurd h (by simp)
  | ok p =>
    obtain ⟨m1, db1, nm, t⟩ := p
    have hnm := (get_table_ok m db key m1 db1 nm t hgt).1
    rw [hgt] at h
    simp only [Except.ok.injEq, Prod.mk.injEq] at h
    obtain ⟨h1, h2, h3⟩ := h
    subst hnm
    refine ⟨h3.symm, db1, t, ?_, h2.symm⟩
    rw [h1]

theorem delete_ok_spec (m m' : LanceMemory) (db db' : DB) (key id : String)
    (hq : dquote ∉ id.data)
    (h : delete m db key id = .ok (m', db')) :
    ∃ (db1 : DB) (t : TableData),
      get_table m db key = .ok (m', db1, pyFormat m.table_name key, t) ∧
      db' = dbSetTable db1 (pyFormat m.table_name key)
        { t with records := t.records.filter (fun r => ! (r.id == id)) } := by
  unfold delete at h
  cases hgt : get_table m db key with
  | error e => rw [hgt] at h; exact absurd h (by simp)
  | ok p =>
    obtain ⟨m1, db1, nm, t⟩ := p
    have hnm := (get_table_ok m db key m1 db1 nm t hgt).1
    rw [hgt, parseFilter_no_quote id hq] at h
    simp only [Except.ok.injEq, Prod.mk.injEq] at h
    obtain ⟨h1, h2⟩ := h
    have hmf : (fun r : Record => ! matchesFilter [id] r) = (fun r : Record => ! (r.id == id)) := by
      funext r
      simp [matchesFilter]
    subst hnm
    refine ⟨db1, t, ?_, ?_⟩
    · rw [h1]
    · rw [← h2, hmf]

/- Characterization of a successful search. -/

theorem search_opens (rk : Ranker) (m : LanceMemory) (db : DB) (key q : String) (n : Nat)
    (mdl : Model) (m' : LanceMemory) (t : TableData)
    (hm : get_model m = .ok (mdl, m'))
    (ht : dbOpenTable db (pyFormat m.table_name key) = some t) :
    search rk m db key q n = .ok (m', db, toDict ((rk.rank t.records q).take n)) := by
  unfold search
  simp only [get_table_opens m db key mdl m' t hm ht, get_model_idem m mdl m' hm]

theorem search_creates (rk : Ranker) (m : LanceMemory) (db : DB) (key q : String) (n : Nat)
    (mdl : Model) (m' : LanceMemory)
    (hm : get_model m = .ok (mdl, m'))
    (ht : dbOpenTable db (pyFormat m.table_name key) = none) :
    search rk m db key q n = .ok (m', (pyFormat m.table_name key, ⟨mdl, []⟩) :: db, []) := by
  unfold search
  simp only [get_table_creates m db key mdl m' hm ht, get_model_idem m mdl m' hm]
  have hrank : rk.rank [] q = [] := List.sublist_nil.mp (rk.rank_sublist [] q)
  simp [hrank, toDict]

/- Claim theorems. -/

/-- Claim C9: when the embedding capability cannot report its output
dimensionality and no schema is cached yet, the schema derivation fails with
the distinguished configuration-error kind; the call performs a single query
and returns the error directly, with no retry. -/
theorem get_model_configuration_error (m : LanceMemory)
    (h1 : m.cached_model = none) (h2 : m.embedding_fn.ndimsResult = none) :
    get_model m = .error .configurationError := by
  unfold get_model EmbeddingFn.ndims
  rw [h1, h2]

/-- Witness for C9 at a concrete misconfigured provider. -/
theorem get_model_configuration_error_witness :
    memBad.cached_model = none ∧ memBad.embedding_fn.ndimsResult = none ∧
    get_model memBad = .error .configurationError :=
  ⟨rfl, rfl, get_model_configuration_error memBad rfl rfl⟩

/-- Claim C4: a successful get_model stores the schema; every later call
returns exactly the stored schema and the unchanged provider, and does so
regardless of the embedding capability the provider then holds — no re-query
of the capability can influence the result. -/
theorem get_model_memoizes (m : LanceMemory) (mdl : Model) (m' : LanceMemory)
    (h : get_model m = .ok (mdl, m')) :
    m'.cached_model = some mdl ∧
    get_model m' = .ok (mdl, m') ∧
    ∀ f : EmbeddingFn,
      get_model { m' with embedding_fn := f } = .ok (mdl, { m' with embedding_fn := f }) := by
  have hf := get_model_fields m mdl m' h
  refine ⟨hf.2, get_model_idem m mdl m' h, fun f => ?_⟩
  apply get_model_cache_hit
  simpa using hf.2

/-- Witness for C4: the second call returns the cached schema even after the
embedding capability is replaced by one that cannot be queried at all. -/
theorem get_model_memoizes_witness :
    get_model memA = .ok (mdlA, memAC) ∧
    get_model { memAC with embedding_fn := fnBad } =
      .ok (mdlA, { memAC with embedding_fn := fnBad }) := by
  have h := get_model_memoizes memA mdlA memAC rfl
  exact ⟨rfl, h.2.2 fnBad⟩

/-- Claim C1 (counterexample): when the table comes into existence between
get_table's open attempt and its create attempt (a concurrent creator won the
race), the create's already-exists failure is surfaced to the caller as an
error instead of being treated as success by opening the existing table. -/
theorem get_table_race_error :
    get_table_interleaved memAC [] [("memory-k", TableData.mk mdlA [])] "k" =
      .error .tableExists := rfl

/-- Claim C1 (amended): get_table formats the key into the template and opens
the existing table of that name, or creates it with the cached schema exactly
when the open reports not-found; but only the open's not-found is handled —
an attempt to create a table that already exists (a creation race) surfaces
the engine's already-exists error to the caller. -/
theorem get_table_open_or_create (m : LanceMemory) (db db1 : DB) (key : String)
    (mdl : Model) (m' : LanceMemory)
    (hm : get_model m = .ok (mdl, m')) :
    (get_table_interleaved m db db key = get_table m db key) ∧
    (∀ t, dbOpenTable db (pyFormat m.table_name key) = some t →
        get_table m db key = .ok (m', db, pyFormat m.table_name key, t)) ∧
    (dbOpenTable db (pyFormat m.table_name key) = none →
        get_table m db key =
          .ok (m', (pyFormat m.table_name key, ⟨mdl, []⟩) :: db,
            pyFormat m.table_name key, ⟨mdl, []⟩)) ∧
    (dbOpenTable db (pyFormat m.table_name key) = none →
        ∀ t1, dbOpenTable db1 (pyFormat m.table_name key) = some t1 →
        get_table_interleaved m db db1 key = .error .tableExists) := by
  refine ⟨rfl, ?_, ?_, ?_⟩
  · intro t ht
    exact get_table_opens m db key mdl m' t hm ht
  · intro ht
    exact get_table_creates m db key mdl m' hm ht
  · intro ht t1 ht1
    unfold get_table_interleaved dbCreateTable
    rw [hm, ht, ht1]

/-- Witness for C1 (amended) at a fresh provider, an empty engine state, and
a concurrently created table. -/
theorem get_table_open_or_create_witness :
    get_model memA = .ok (mdlA, memAC) ∧
    get_table_interleaved memA [] [] "k" = get_table memA [] "k" ∧
    get_table_interleaved memA [] [("memory-k", TableData.mk mdlA [])] "k" =
      .error .tableExists := by
  have h := get_table_open_or_create memA [] [("memory-k", TableData.mk mdlA [])] "k" mdlA memAC rfl
  exact ⟨rfl, h.1, h.2.2.2 rfl (TableData.mk mdlA []) rfl⟩

/-- Claim C2 (counterexample): delete interpolates the caller-supplied
identifier into its filter with no escaping, so an identifier containing a
double quote changes the filter's meaning: deleting the identifier
a" OR id = "b from a space whose only record has id b removes that record,
although no stored record's id equals the supplied identifier. -/
theorem delete_raw_interpolation :
    delete memAC dbInj "k" injectionId = .ok (memAC, [("memory-k", TableData.mk mdlA [])]) ∧
    recB.id ≠ injectionId :=
  ⟨rfl, by decide⟩

/-- Claim C2 (amended): delete builds its filter by raw f-string interpolation
of the caller-supplied id.  For every identifier containing no double-quote
character the filter denotes exact equality on the id field: delete removes
exactly the records of the resolved space whose identifier equals the given
id, leaves every other record and every other space untouched, and deleting an
identifier matching no record is a successful no-op; identifiers containing a
double quote can change the filter's meaning (see the counterexample). -/
theorem delete_exact_equality (m m' : LanceMemory) (db db' : DB) (key id : String)
    (hq : dquote ∉ id.data)
    (h : delete m db key id = .ok (m', db')) :
    (∀ t t', dbOpenTable db (pyFormat m.table_name key) = some t →
        dbOpenTable db' (pyFormat m.table_name key) = some t' →
        t'.records = t.records.filter (fun r => ! (r.id == id)) ∧
        ((∀ r ∈ t.records, r.id ≠ id) → t'.records = t.records)) ∧
    (∀ nm', nm' ≠ pyFormat m.table_name key → dbOpenTable db' nm' = dbOpenTable db nm') := by
  obtain ⟨db1, t, hgt, hdb'⟩ := delete_ok_spec m m' db db' key id hq h
  have hlk := get_table_ok_lookup m db key m' db1 (pyFormat m.table_name key) t hgt
  obtain ⟨hnm1, mdl, hm, hcase⟩ := get_table_ok m db key m' db1 (pyFormat m.table_name key) t hgt
  constructor
  · intro t0 t' ht0 ht'
    cases hcase with
    | inl hc =>
      have htt : t = t0 := by
        rw [hc.1] at ht0
        exact Option.some.inj ht0
      have hset : dbOpenTable db' (pyFormat m.table_name key) =
          some { t with records := t.records.filter (fun r => ! (r.id == id)) } := by
        rw [hdb', hc.2]
        exact dbOpenTable_set_self db (pyFormat m.table_name key) _ t hc.1
      rw [hset] at ht'
      have ht'' := Option.some.inj ht'
      subst htt
      constructor
      · rw [← ht'']
      · intro hnone
        rw [← ht'']
        show t.records.filter (fun r => ! (r.id == id)) = t.records
        apply List.filter_eq_self.mpr
        intro r hr
        simp [hnone r hr]
    | inr hc =>
      rw [hc.1] at ht0
      exact absurd ht0 (by simp)
  · intro nm' hne
    rw [hdb', dbOpenTable_set_other db1 (pyFormat m.table_name key) nm' _ hne]
    exact hlk.2 nm' hne

/-- Witness for C2 (amended): deleting an absent, quote-free identifier from a
populated space is a successful no-op. -/
theorem delete_exact_equality_witness :
    dquote ∉ ("zzz" : String).data ∧
    delete memAC dbWk "k" "zzz" = .ok (memAC, dbWk) ∧
    (∀ nm', nm' ≠ pyFormat memAC.table_name "k" →
      dbOpenTable dbWk nm' = dbOpenTable dbWk nm') := by
  have h := delete_exact_equality memAC memAC dbWk dbWk "k" "zzz" (by decide) rfl
  exact ⟨by decide, rfl, fun nm' hne => h.2 nm' hne⟩

/-- Claim C3: a successful search with limit n returns a mapping with at most
n entries. -/
theorem search_at_most_n (rk : Ranker) (m m' : LanceMemory) (db db' : DB)
    (key q : String) (n : Nat) (res : List (String × String))
    (_hn : 0 < n)
    (h : search rk m db key q n = .ok (m', db', res)) :
    res.length ≤ n := by
  unfold search at h
  cases hgt : get_table m db key with
  | error e => rw [hgt] at h; exact absurd h (by simp)
  | ok p =>
    obtain ⟨m1, db1, nm, t⟩ := p
    rw [hgt] at h
    simp only [] at h
    cases hgm : get_model m1 with
    | error e =>
      rw [hgm] at h
      simp at h
    | ok p2 =>
      obtain ⟨mdl, m2⟩ := p2
      rw [hgm] at h
      simp only [Except.ok.injEq, Prod.mk.injEq] at h
      obtain ⟨h1, h2, h3⟩ := h
      rw [← h3]
      calc (toDict ((rk.rank t.records q).take n)).length
          ≤ ((rk.rank t.records q).take n).length := toDict_length _
        _ ≤ n := by rw [List.length_take]; exact Nat.min_le_left _ _

/-- Witness for C3 on a one-record space with limit 1. -/
theorem search_at_most_n_witness :
    0 < 1 ∧
    search rkAll memAC dbWk "k" "hi" 1 = .ok (memAC, dbWk, [("id-1", "hello")]) ∧
    ([("id-1", "hello")] : List (String × String)).length ≤ 1 :=
  ⟨Nat.one_pos, rfl,
    search_at_most_n rkAll memAC memAC dbWk dbWk "k" "hi" 1 [("id-1", "hello")] Nat.one_pos rfl⟩

/-- Claim C6: a successful add returns exactly the generated identifier and
appends to the resolved space one record carrying that identifier, the given
content, and a vector computed by the table schema's embedding pipeline (the
caller supplied no vector: add accepts only the key and the content). -/
theorem add_returns_id_and_inserts (m m' : LanceMemory) (db db' : DB)
    (newId key c rid : String)
    (h : add m db newId key c = .ok (m', db', rid)) :
    rid = newId ∧
    ∃ t : TableData, dbOpenTable db' (pyFormat m.table_name key) = some t ∧
      ∃ old : List Record,
        t.records = old ++ [⟨newId, c, t.model.fn.embed c⟩] ∧
        ((dbOpenTable db (pyFormat m.table_name key) = some ⟨t.model, old⟩) ∨
         (dbOpenTable db (pyFormat m.table_name key) = none ∧ old = [])) := by
  obtain ⟨hrid, db1, t, hgt, hdb'⟩ := add_ok_spec m m' db db' newId key c rid h
  have hlk := get_table_ok_lookup m db key m' db1 (pyFormat m.table_name key) t hgt
  obtain ⟨-, mdl, hm, hcase⟩ := get_table_ok m db key m' db1 (pyFormat m.table_name key) t hgt
  refine ⟨hrid,
    { t with records := t.records ++ [⟨newId, c, t.model.fn.embed c⟩] },
    ?_, t.records, rfl, ?_⟩
  · rw [hdb']
    exact dbOpenTable_set_self db1 (pyFormat m.table_name key) _ t hlk.1
  · cases hcase with
    | inl hc => exact Or.inl hc.1
    | inr hc =>
      refine Or.inr ⟨hc.1, ?_⟩
      rw [hc.2.1]

/-- Witness for C6 at a concrete add into an empty engine state. -/
theorem add_returns_id_and_inserts_witness :
    add memA [] "id-1" "k" "hello" = .ok (memAC, dbWk, "id-1") ∧
    ("id-1" : String) = "id-1" :=
  ⟨rfl, (add_returns_id_and_inserts memA memAC [] dbWk "id-1" "k" "hello" "id-1" rfl).1⟩

/-- Claim C7: searching a key whose space does not exist implicitly creates
the space (the table appears in the resulting engine state) and returns an
empty mapping, not an error; searching an existing space with zero records
likewise returns an empty mapping. -/
theorem search_empty_space (rk : Ranker) (m : LanceMemory) (db : DB) (key q : String)
    (n : Nat) (mdl : Model) (m' : LanceMemory)
    (hm : get_model m = .ok (mdl, m')) :
    (dbOpenTable db (pyFormat m.table_name key) = none →
        search rk m db key q n =
          .ok (m', (pyFormat m.table_name key, ⟨mdl, []⟩) :: db, []) ∧
        dbOpenTable ((pyFormat m.table_name key, (⟨mdl, []⟩ : TableData)) :: db)
          (pyFormat m.table_name key) = some ⟨mdl, []⟩) ∧
    (∀ t, dbOpenTable db (pyFormat m.table_name key) = some t → t.records = [] →
        search rk m db key q n = .ok (m', db, [])) := by
  constructor
  · intro ht
    refine ⟨search_creates rk m db key q n mdl m' hm ht, ?_⟩
    simp [dbOpenTable]
  · intro t ht hrec
    rw [search_opens rk m db key q n mdl m' t hm ht, hrec]
    have hrank : rk.rank [] q = [] := List.sublist_nil.mp (rk.rank_sublist [] q)
    simp [hrank, toDict]

/-- Witness for C7: searching a never-seen key on an empty engine state. -/
theorem search_empty_space_witness :
    get_model memA = .ok (mdlA, memAC) ∧
    dbOpenTable [] (pyFormat memA.table_name "k") = none ∧
    search rkAll memA [] "k" "anything" 20 = .ok (memAC, dbEmptyK, []) := by
  have h := search_empty_space rkAll memA [] "k" "anything" 20 mdlA memAC rfl
  exact ⟨rfl, rfl, (h.1 rfl).1⟩

/-- Claim C5: a record added under one key is invisible to searches under any
key whose table name differs — the search output is exactly what it would
have been without the add; and the default naming template maps distinct keys
to distinct table names. -/
theorem space_independence (rk : Ranker) (m m1 : LanceMemory) (db db1 : DB)
    (newId k1 k2 c q : String) (n : Nat) (rid : String)
    (hk : pyFormat m.table_name k1 ≠ pyFormat m.table_name k2)
    (hadd : add m db newId k1 c = .ok (m1, db1, rid)) :
    outOnly (search rk m1 db1 k2 q n) = outOnly (search rk m db k2 q n) ∧
    Function.Injective (pyFormat defaultTemplate) := by
  refine ⟨?_, fun a b hab => pyFormat_default_inj a b hab⟩
  obtain ⟨-, dbt, t, hgt, hdb1⟩ := add_ok_spec m m1 db db1 newId k1 c rid hadd
  obtain ⟨-, mdl, hm, -⟩ := get_table_ok m db k1 m1 dbt (pyFormat m.table_name k1) t hgt
  have hlk := get_table_ok_lookup m db k1 m1 dbt (pyFormat m.table_name k1) t hgt
  have htn : m1.table_name = m.table_name := (get_model_fields m mdl m1 hm).1
  have hm1 : get_model m1 = .ok (mdl, m1) := get_model_idem m mdl m1 hm
  have hne : pyFormat m.table_name k2 ≠ pyFormat m.table_name k1 := fun he => hk he.symm
  have hdb2 : dbOpenTable db1 (pyFormat m.table_name k2) =
      dbOpenTable db (pyFormat m.table_name k2) := by
    rw [hdb1, dbOpenTable_set_other dbt (pyFormat m.table_name k1)
      (pyFormat m.table_name k2) _ hne]
    exact hlk.2 _ hne
  cases hres : dbOpenTable db (pyFormat m.table_name k2) with
  | some t2 =>
    rw [search_opens rk m1 db1 k2 q n mdl m1 t2 hm1 (by rw [htn, hdb2]; exact hres),
      search_opens rk m db k2 q n mdl m1 t2 hm hres]
    rfl
  | none =>
    rw [search_creates rk m1 db1 k2 q n mdl m1 hm1 (by rw [htn, hdb2]; exact hres),
      search_creates rk m db k2 q n mdl m1 hm hres]
    rfl

/-- Witness for C5: an add under key k1 leaves the search output for key k2
unchanged, on a concrete engine state. -/
theorem space_independence_witness :
    pyFormat memA.table_name "k1" ≠ pyFormat memA.table_name "k2" ∧
    add memA [] "id-1" "k1" "hello" = .ok (memAC, dbW1, "id-1") ∧
    outOnly (search rkAll memAC dbW1 "k2" "hi" 3) =
      outOnly (search rkAll memA [] "k2" "hi" 3) := by
  have h := space_independence rkAll memA memAC [] dbW1 "id-1" "k1" "k2" "hello" "hi" 3 "id-1"
    (by decide) rfl
  exact ⟨by decide, rfl, h.1⟩

/-- Claim C8: add of some content under a key, followed by delete of the
returned identifier, followed by a search under that key, yields a mapping
that does not contain the returned identifier as a key.  The identifier is
the output of the uuid capability, which never contains a double quote. -/
theorem add_delete_search_excludes (rk : Ranker) (m m1 m2 m3 : LanceMemory)
    (db db1 db2 db3 : DB) (newId k c : String) (n : Nat) (rid : String)
    (res : List (String × String))
    (hq : dquote ∉ newId.data)
    (hadd : add m db newId k c = .ok (m1, db1, rid))
    (hdel : delete m1 db1 k rid = .ok (m2, db2))
    (hsearch : search rk m2 db2 k c n = .ok (m3, db3, res)) :
    ∀ v, (rid, v) ∉ res := by
  obtain ⟨hrid, -, -, -, -⟩ := add_ok_spec m m1 db db1 newId k c rid hadd
  subst hrid
  obtain ⟨dbD, tD, hgtD, hdb2⟩ := delete_ok_spec m1 m2 db1 db2 k rid hq hdel
  obtain ⟨-, mdl2, hm2, -⟩ := get_table_ok m1 db1 k m2 dbD (pyFormat m1.table_name k) tD hgtD
  have hlkD := get_table_ok_lookup m1 db1 k m2 dbD (pyFormat m1.table_name k) tD hgtD
  have htn2 : m2.table_name = m1.table_name := (get_model_fields m1 mdl2 m2 hm2).1
  have hm2' : get_model m2 = .ok (mdl2, m2) := get_model_idem m1 mdl2 m2 hm2
  have hlook : dbOpenTable db2 (pyFormat m2.table_name k) =
      some { tD with records := tD.records.filter (fun r => ! (r.id == rid)) } := by
    rw [htn2, hdb2]
    exact dbOpenTable_set_self dbD (pyFormat m1.table_name k) _ tD hlkD.1
  rw [search_opens rk m2 db2 k c n mdl2 m2 _ hm2' hlook] at hsearch
  simp only [Except.ok.injEq, Prod.mk.injEq] at hsearch
  obtain ⟨-, -, hres⟩ := hsearch
  intro v hv
  rw [← hres] at hv
  obtain ⟨r, hrmem, hrident⟩ := toDict_mem _ _ hv
  have hr1 : r ∈ rk.rank (tD.records.filter (fun r => ! (r.id == rid))) c :=
    List.mem_of_mem_take hrmem
  have hr2 : r ∈ tD.records.filter (fun r => ! (r.id == rid)) :=
    (rk.rank_sublist _ c).subset hr1
  have hr3 := List.of_mem_filter hr2
  rw [hrident] at hr3
  simp at hr3

/-- Witness for C8: the concrete add, delete, search chain on one key. -/
theorem add_delete_search_excludes_witness :
    dquote ∉ ("id-1" : String).data ∧
    add memA [] "id-1" "k" "hello" = .ok (memAC, dbWk, "id-1") ∧
    delete memAC dbWk "k" "id-1" = .ok (memAC, dbEmptyK) ∧
    search rkAll memAC dbEmptyK "k" "hello" 5 = .ok (memAC, dbEmptyK, []) ∧
    ("id-1", "hello") ∉ ([] : List (String × String)) :=
  ⟨by decide, rfl, rfl, rfl,
    add_delete_search_excludes rkAll memA memAC memAC memAC [] dbWk dbEmptyK dbEmptyK
      "id-1" "k" "hello" 5 "id-1" [] (by decide) rfl rfl rfl "hello"⟩

/-- Claim C10: once the schema is cached, the provider's current embedding
capability is irrelevant: replacing embedding_fn leaves the schema returned by
get_model, and the engine effects and outputs of add, delete and search,
exactly unchanged (the vectors written on add come from the embedding function
captured in the table schema, not from the provider field). -/
theorem embedding_fn_swap_no_effect (m : LanceMemory) (mdl : Model) (f : EmbeddingFn)
    (rk : Ranker) (db : DB) (newId key c q id : String) (n : Nat)
    (hc : m.cached_model = some mdl) :
    get_model { m with embedding_fn := f } = .ok (mdl, { m with embedding_fn := f }) ∧
    dbAndOut (add { m with embedding_fn := f } db newId key c) =
      dbAndOut (add m db newId key c) ∧
    dbOnly (delete { m with embedding_fn := f } db key id) =
      dbOnly (delete m db key id) ∧
    dbAndOut (search rk { m with embedding_fn := f } db key q n) =
      dbAndOut (search rk m db key q n) := by
  have hcf : ({ m with embedding_fn := f }).cached_model = some mdl := hc
  have hgf : get_model { m with embedding_fn := f } =
      .ok (mdl, { m with embedding_fn := f }) :=
    get_model_cache_hit _ mdl hcf
  have hg : get_model m = .ok (mdl, m) := get_model_cache_hit m mdl hc
  refine ⟨hgf, ?_, ?_, ?_⟩
  · cases hdb : dbOpenTable db (pyFormat m.table_name key) with
    | some t => simp [add, get_table, hgf, hg, hdb, dbAndOut]
    | none => simp [add, get_table, hgf, hg, hdb, dbCreateTable, dbAndOut]
  · cases hp : parseFilter (filterString id) with
    | some lits =>
      cases hdb : dbOpenTable db (pyFormat m.table_name key) with
      | some t => simp [delete, get_table, hgf, hg, hdb, hp, dbOnly]
      | none => simp [delete, get_table, hgf, hg, hdb, hp, dbCreateTable, dbOnly]
    | none =>
      cases hdb : dbOpenTable db (pyFormat m.table_name key) with
      | some t => simp [delete, get_table, hgf, hg, hdb, hp, dbOnly]
      | none => simp [delete, get_table, hgf, hg, hdb, hp, dbCreateTable, dbOnly]
  · cases hdb : dbOpenTable db (pyFormat m.table_name key) with
    | some t => simp [search, get_table, hgf, hg, hdb, dbAndOut]
    | none => simp [search, get_table, hgf, hg, hdb, dbCreateTable, dbAndOut]

/-- Witness for C10: after the schema is cached, swapping in an unusable
embedding capability leaves the add effect unchanged. -/
theorem embedding_fn_swap_no_effect_witness :
    memAC.cached_model = some mdlA ∧
    dbAndOut (add { memAC with embedding_fn := fnBad } dbWk "id-2" "k" "bye") =
      dbAndOut (add memAC dbWk "id-2" "k" "bye") :=
  ⟨rfl, (embedding_fn_swap_no_effect memAC mdlA fnBad rkAll dbWk "id-2" "k" "bye" "hi"
    "id-1" 3 rfl).2.1⟩

end LanceMem
